import Mathlib

/-!
Shallow embedding of the pooled buffer-management core of the
`go-serializer` repository (`msgpack.go`, `unsafe.go`, and the
size-capped buffer pool of the JSON path).

Modelling conventions:
* Go byte slices are `List Nat`; a *possibly nil* Go slice is
  `Option (List Nat)` (`none` = nil slice, `some bs` = non-nil slice
  with contents `bs`).
* `bytes.Buffer` is a record of current contents and allocated
  capacity; `Reset` clears the contents and keeps the capacity, and the
  underlying array is nil exactly when the capacity is `0`, so
  `Buffer.bytes` returns `none` exactly then (as Go `Buffer.Bytes`).
* `sync.Pool` is modelled as a LIFO list: `Get` pops the most recent
  entry or constructs a fresh one on a miss, `Put` pushes.  The
  `msgpack.Encoder` / `msgpack.Decoder` objects carried by pool entries
  hold no observable state across `Reset`, so an encoder entry is just
  its buffer and a decoder entry just its re-bindable reader.
* The external msgpack codec (an out-of-scope collaborator, invoked and
  never reimplemented) is an abstract `Codec` with deterministic
  `encode` / `decode` at the boundary the spec describes.
* Go `nil` interface arguments are `Option` arguments (`none` = nil);
  the output target pointer of a deserialize call is only ever tested
  against nil, so it is modelled by the flag `targetNil`, and a
  successful decode is modelled by returning the decoded value.
* Mutable global pool state is passed explicitly through a `World`
  record holding the encoder pool and the decoder pool.
-/

namespace GoSerializer

/-- MAX_BUF_CAP from `msgpack.go`: the maximum buffer capacity before
buffers are discarded from the pool (1 MB). -/
def MAX_BUF_CAP : Nat := 1 <<< 20

/-- Model of `bytes.Buffer`: current contents plus allocated capacity. -/
structure Buffer where
  data : List Nat
  cap : Nat
deriving Repr, DecidableEq

/-- Model of `Buffer.Len`: the length of the current contents. -/
def Buffer.len (b : Buffer) : Nat := b.data.length

/-- Model of `Buffer.Reset`: contents cleared, capacity retained. -/
def Buffer.reset (b : Buffer) : Buffer := { b with data := [] }

/-- Writing `bs` into a buffer appends it, growing the capacity when the
needed size exceeds the current capacity. -/
def Buffer.write (b : Buffer) (bs : List Nat) : Buffer :=
  { data := b.data ++ bs, cap := max b.cap (b.data.length + bs.length) }

/-- Model of `Buffer.Bytes`: the underlying array of a `bytes.Buffer` is
nil exactly when the buffer never allocated (capacity 0). -/
def Buffer.bytes (b : Buffer) : Option (List Nat) :=
  if b.cap = 0 then none else some b.data

/-- Model of `pooledEncoder` from `msgpack.go`: a reusable encoder and
its bound buffer.  The `msgpack.Encoder` itself is rebound with `Reset`
on every use and carries no observable state, so only the buffer is
kept. -/
structure PooledEncoder where
  buf : Buffer
deriving Repr, DecidableEq

/-- The entry built by `encoderPool.New`: a fresh empty buffer with a
fresh encoder bound to it. -/
def newPooledEncoder : PooledEncoder := { buf := { data := [], cap := 0 } }

/-- Model of `getPooledEncoder`: pop the pool, or construct a fresh
entry on a pool miss. -/
def getPooledEncoder : List PooledEncoder → PooledEncoder × List PooledEncoder
  | [] => (newPooledEncoder, [])
  | pe :: rest => (pe, rest)

/-- Model of `putPooledEncoder` from `msgpack.go`: if the buffer
capacity exceeds `MAX_BUF_CAP` the entire encoder is discarded,
otherwise it is returned to the pool. -/
def putPooledEncoder (pool : List PooledEncoder) (pe : PooledEncoder) :
    List PooledEncoder :=
  if MAX_BUF_CAP < pe.buf.cap then pool else pe :: pool

/-- Model of `pooledDecoder` from `msgpack.go`: a reusable decoder plus
its re-bindable `bytes.Reader` (the current binding of the reader is the only
observable state). -/
structure PooledDecoder where
  reader : Option (List Nat)
deriving Repr, DecidableEq

/-- Model of `getPooledDecoder`: pop the pool (or construct a fresh
entry whose reader is bound to nil), then rebind the reader to `data`
and reset the decoder onto it. -/
def getPooledDecoder : List PooledDecoder → List Nat →
    PooledDecoder × List PooledDecoder
  | [], data => ({ reader := some data }, [])
  | pd :: rest, data => ({ pd with reader := some data }, rest)

/-- Model of `putPooledDecoder`: reset the reader to nil (releasing the
reference to the data) and push the entry back. -/
def putPooledDecoder (pool : List PooledDecoder) (pd : PooledDecoder) :
    List PooledDecoder :=
  { pd with reader := none } :: pool

/-- The process-wide mutable pool state of `msgpack.go`, passed
explicitly. -/
structure World where
  encPool : List PooledEncoder
  decPool : List PooledDecoder
deriving Repr, DecidableEq

/-- The external codec boundary (spec section 6): deterministic encode
and decode provided by the out-of-scope msgpack library. -/
structure Codec (V : Type) where
  encode : V → Except String (List Nat)
  decode : List Nat → Except String V

/-- Model of `PooledBuf` from `msgpack.go`: an ownership handle that
holds the complete pooled encoder until released (`pe = none` after
release). -/
structure PooledBuf where
  pe : Option PooledEncoder
deriving Repr, DecidableEq

/-- Model of `PooledBuf.Bytes`: nil when the handle was released,
otherwise the bytes of the bound buffer. -/
def PooledBuf.Bytes (p : PooledBuf) : Option (List Nat) :=
  match p.pe with
  | none => none
  | some pe => pe.buf.bytes

/-- Model of `PooledBuf.Len`: 0 when the handle was released, otherwise
the length of the bound buffer. -/
def PooledBuf.Len (p : PooledBuf) : Nat :=
  match p.pe with
  | none => 0
  | some pe => pe.buf.len

/-- Model of `PooledBuf.Release`: return the held encoder to the pool
and null the internal reference; a no-op when already released. -/
def PooledBuf.Release (p : PooledBuf) (w : World) : PooledBuf × World :=
  match p.pe with
  | none => (p, w)
  | some pe =>
    (⟨none⟩, { w with encPool := putPooledEncoder w.encPool pe })

/-- Model of `MsgPackSerializer.SerializeSafe`: nil check, acquire a
pooled encoder, reset the buffer, encode, copy the buffer contents to an
owned slice, and return the entry to the pool on every path (via the
deferred `putPooledEncoder`). -/
def SerializeSafe {V : Type} (c : Codec V) (w : World) (v : Option V) :
    Except String (List Nat) × World :=
  match v with
  | none => (.error "cannot serialize nil value", w)
  | some x =>
    let acq := getPooledEncoder w.encPool
    let buf := acq.1.buf.reset
    match c.encode x with
    | .error e =>
      (.error e, { w with encPool := putPooledEncoder acq.2 { buf := buf } })
    | .ok bs =>
      let buf := buf.write bs
      let out := buf.data
      (.ok out, { w with encPool := putPooledEncoder acq.2 { buf := buf } })

/-- Model of `MsgPackSerializer.Serialize`: delegates to
`SerializeSafe`. -/
def Serialize {V : Type} (c : Codec V) (w : World) (v : Option V) :
    Except String (List Nat) × World :=
  SerializeSafe c w v

/-- Model of `MsgPackSerializer.SerializePooled`: same encode sequence,
but on success the encoder is not returned to the pool — ownership
transfers to the returned `PooledBuf`; on encode failure the entry is
returned to the pool immediately. -/
def SerializePooled {V : Type} (c : Codec V) (w : World) (v : Option V) :
    Except String PooledBuf × World :=
  match v with
  | none => (.error "cannot serialize nil value", w)
  | some x =>
    let acq := getPooledEncoder w.encPool
    let buf := acq.1.buf.reset
    match c.encode x with
    | .error e =>
      (.error e, { w with encPool := putPooledEncoder acq.2 { buf := buf } })
    | .ok bs =>
      (.ok ⟨some { buf := buf.write bs }⟩, { w with encPool := acq.2 })

/-- Model of `MsgPackSerializer.Deserialize`: nil-data and nil-target
checks, then decode through a pooled decoder which is returned to the
pool unconditionally. -/
def Deserialize {V : Type} (c : Codec V) (w : World)
    (data : Option (List Nat)) (targetNil : Bool) :
    Except String V × World :=
  match data with
  | none => (.error "data is nil", w)
  | some d =>
    if targetNil then (.error "output parameter is nil", w)
    else
      let acq := getPooledDecoder w.decPool d
      (c.decode d, { w with decPool := putPooledDecoder acq.2 acq.1 })

/-- Model of `MsgPackSerializer.DeserializeFromPooled`: explicit errors
for a nil `PooledBuf`, a nil target, and a buffer with no data (an
already-released handle); otherwise decode the bytes held by the handle through a
pooled decoder.  The `PooledBuf` itself is never modified or
released. -/
def DeserializeFromPooled {V : Type} (c : Codec V) (w : World)
    (pb : Option PooledBuf) (targetNil : Bool) :
    Except String V × World :=
  match pb with
  | none => (.error "PooledBuf is nil", w)
  | some p =>
    if targetNil then (.error "output parameter is nil", w)
    else
      match p.Bytes with
      | none => (.error "PooledBuf contains no data", w)
      | some d =>
        let acq := getPooledDecoder w.decPool d
        (c.decode d, { w with decPool := putPooledDecoder acq.2 acq.1 })

/-- Model of `stringToReadOnlyBytes` from `unsafe.go`.  A Go string is
an immutable byte sequence, modelled as `List Nat`; the result is a
possibly-nil byte slice: nil for the empty string, and otherwise a view
carrying exactly the bytes of the string. -/
def stringToReadOnlyBytes (s : List Nat) : Option (List Nat) :=
  if s.length = 0 then none else some s

/-- Modelled from the spec: `newPooledBufferPool` (the
SizeCappedBufferPool of spec section 4.1, used by the JSON text-format
path) is absent from `src/` — only its tests
(`TestBufferPool...`) and callers (`NewJSONSerializer(maxBufferSize)`)
appear.  Per the spec, `release(entry)` drops the entry when its
capacity exceeds the ceiling, and a ceiling `<= 0` means uncapped;
otherwise the length of the entry is reset to zero and it is placed back. -/
structure PooledBufferPool where
  maxBufferSize : Int
  entries : List Buffer
deriving Repr, DecidableEq

/-- Modelled from the spec: the SizeCappedBufferPool constructor takes
the configurable ceiling and starts with no idle entries. -/
def newPooledBufferPool (maxSize : Int) : PooledBufferPool :=
  { maxBufferSize := maxSize, entries := [] }

/-- Modelled from the spec: `release(entry)` for the
SizeCappedBufferPool — drop the entry when the ceiling is positive and
the capacity of the entry exceeds it; otherwise reset its length to zero and
place it back. -/
def PooledBufferPool.Put (p : PooledBufferPool) (b : Buffer) :
    PooledBufferPool :=
  if 0 < p.maxBufferSize ∧ p.maxBufferSize < (b.cap : Int) then p
  else { p with entries := b.reset :: p.entries }

/-- Modelled from the spec: `acquire()` for the SizeCappedBufferPool —
pop an idle entry or construct a fresh empty one on a miss. -/
def PooledBufferPool.Get (p : PooledBufferPool) :
    Buffer × PooledBufferPool :=
  match p.entries with
  | [] => ({ data := [], cap := 0 }, p)
  | b :: rest => (b, { p with entries := rest })

/-- The JSON serializer of the missing configurable-pool variant: it
owns a size-capped buffer pool built from the constructor
parameter `maxBufferSize`. -/
structure JSONSerializer where
  pool : PooledBufferPool
deriving Repr, DecidableEq

/-- Modelled from the spec and callers: `NewJSONSerializer(maxBufferSize)`
constructs the serializer with a pool capped at `maxBufferSize`. -/
def NewJSONSerializer (maxBufferSize : Int) : JSONSerializer :=
  { pool := newPooledBufferPool maxBufferSize }


/-- A small concrete codec instantiating the abstract boundary for
witnesses: a natural number n is encoded as the singleton byte list
containing n, and decoding inverts that. -/
def natCodec : Codec Nat where
  encode n := .ok [n]
  decode bs :=
    match bs with
    | [n] => .ok n
    | _ => .error "invalid data"

/-- A concrete codec whose encode always fails, exercising the failure
paths. -/
def failCodec : Codec Nat where
  encode _ := .error "encode failure"
  decode _ := .error "decode failure"

/-- The byte content of a possibly-nil Go slice: a nil slice and an
empty slice both hold no bytes. -/
def bytesView (o : Option (List Nat)) : List Nat := o.getD []

/-- Helper: a successful encode makes `SerializeSafe` return exactly the
encoded bytes. -/
theorem serializeSafe_fst_ok {V : Type} (c : Codec V) (w : World) (x : V)
    (bs : List Nat) (henc : c.encode x = .ok bs) :
    (SerializeSafe c w (some x)).1 = .ok bs := by
  simp [SerializeSafe, henc, Buffer.reset, Buffer.write]

/-- Helper: an entry acquired from a pool whose members all satisfy the
size cap again satisfies the size cap (a fresh entry has capacity 0). -/
theorem getPooledEncoder_cap_le (pool : List PooledEncoder)
    (hinv : ∀ pe ∈ pool, pe.buf.cap ≤ MAX_BUF_CAP) :
    (getPooledEncoder pool).1.buf.cap ≤ MAX_BUF_CAP := by
  cases pool with
  | nil => simp [getPooledEncoder, newPooledEncoder]
  | cons pe rest => exact hinv pe (List.mem_cons_self pe rest)

/-- C1: for every PooledBuf handle, after the first call to Release the
handle reports nil bytes and length 0, and a further Release is a safe
no-op: it returns the same handle and the same world, so no entry is
returned to the pool a second time. -/
theorem pooledBuf_release_empties_and_is_idempotent
    (pb : PooledBuf) (w : World) :
    (pb.Release w).1.Bytes = none ∧
    (pb.Release w).1.Len = 0 ∧
    (pb.Release w).1.Release (pb.Release w).2 = pb.Release w := by
  cases pb with
  | mk pe =>
    cases pe <;>
      simp [PooledBuf.Release, PooledBuf.Bytes, PooledBuf.Len]

/-- C9: the string-to-bytes view returns nil for a zero-length string,
and for every non-empty string returns a non-nil view content-equal to
the bytes of the string; in particular on the bytes of "hello" it
returns exactly those bytes. -/
theorem stringToReadOnlyBytes_view :
    stringToReadOnlyBytes [] = none ∧
    (∀ s : List Nat, s ≠ [] → stringToReadOnlyBytes s = some s) ∧
    stringToReadOnlyBytes [104, 101, 108, 108, 111] =
      some [104, 101, 108, 108, 111] := by
  refine ⟨rfl, ?_, rfl⟩
  intro s hs
  simp [stringToReadOnlyBytes, hs]

/-- Witness for C9 at the concrete non-empty input [7]. -/
theorem stringToReadOnlyBytes_view_witness :
    stringToReadOnlyBytes [7] = some [7] :=
  stringToReadOnlyBytes_view.2.1 [7] (by decide)

/-- C10: Serialize returns exactly the same result (bytes or error, and
final pool state) as SerializeSafe on every input, including the
nil-value error case. -/
theorem serialize_delegates_to_serializeSafe {V : Type} (c : Codec V)
    (w : World) (v : Option V) :
    Serialize c w v = SerializeSafe c w v ∧
    Serialize c w none = (.error "cannot serialize nil value", w) := by
  exact ⟨rfl, rfl⟩

/-- C6: DeserializeFromPooled returns a distinct explicit error, leaving
the world untouched and independently of the codec, when the PooledBuf
is nil, when the target is nil, and when the PooledBuf was already
released (nil bytes). -/
theorem deserializeFromPooled_contract_errors {V : Type} (c : Codec V)
    (w : World) (pb : PooledBuf) (hrel : pb.pe = none) :
    DeserializeFromPooled c w none true = (.error "PooledBuf is nil", w) ∧
    DeserializeFromPooled c w none false = (.error "PooledBuf is nil", w) ∧
    (∀ pb2 : PooledBuf, DeserializeFromPooled c w (some pb2) true
      = (.error "output parameter is nil", w)) ∧
    DeserializeFromPooled c w (some pb) false
      = (.error "PooledBuf contains no data", w) ∧
    ("PooledBuf is nil" ≠ "output parameter is nil" ∧
     "PooledBuf is nil" ≠ "PooledBuf contains no data" ∧
     "output parameter is nil" ≠ "PooledBuf contains no data") := by
  refine ⟨rfl, rfl, fun pb2 => rfl, ?_, by decide⟩
  simp [DeserializeFromPooled, PooledBuf.Bytes, hrel]

/-- Witness for C6: an already-released handle makes
DeserializeFromPooled fail with the explicit no-data error. -/
theorem deserializeFromPooled_contract_errors_witness :
    DeserializeFromPooled natCodec ⟨[], []⟩ (some ⟨none⟩) false
      = (.error "PooledBuf contains no data", ⟨[], []⟩) :=
  (deserializeFromPooled_contract_errors natCodec ⟨[], []⟩ ⟨none⟩ rfl).2.2.2.1

/-- C2: for every value the codec accepts, the bytes returned by
SerializeSafe and the byte content read through Bytes on the handle
returned by SerializePooled (before any release) are identical,
whatever the pool states the two calls start from. -/
theorem serializeSafe_serializePooled_same_bytes {V : Type} (c : Codec V)
    (w1 w2 : World) (x : V) (bs : List Nat) (henc : c.encode x = .ok bs) :
    (SerializeSafe c w1 (some x)).1 = .ok bs ∧
    (SerializePooled c w2 (some x)).1.map (fun pb => bytesView pb.Bytes)
      = .ok bs := by
  refine ⟨serializeSafe_fst_ok c w1 x bs henc, ?_⟩
  simp only [SerializePooled, henc, Except.map, PooledBuf.Bytes,
    Buffer.bytes, Buffer.reset, Buffer.write, bytesView, List.nil_append,
    List.length_nil, Nat.zero_add]
  split
  next h =>
    have hbs : bs = [] := by
      have : bs.length = 0 := by omega
      exact List.length_eq_zero.mp this
    simp [hbs]
  next h => simp

/-- Witness for C2 at the concrete codec and value 5. -/
theorem serializeSafe_serializePooled_same_bytes_witness :
    (SerializeSafe natCodec ⟨[], []⟩ (some 5)).1 = .ok [5] ∧
    (SerializePooled natCodec ⟨[], []⟩ (some 5)).1.map
      (fun pb => bytesView pb.Bytes) = .ok [5] :=
  serializeSafe_serializePooled_same_bytes natCodec ⟨[], []⟩ ⟨[], []⟩ 5 [5] rfl

/-- C3: for every value the codec can encode and decode back (the codec
round-trip at that value, the correctness of the external library at
its boundary), SerializeSafe produces exactly the encoded bytes and
Deserialize on those bytes with a non-nil fresh target succeeds and
yields the original value. -/
theorem serializeSafe_deserialize_roundtrip {V : Type} (c : Codec V)
    (w w2 : World) (x : V) (bs : List Nat)
    (henc : c.encode x = .ok bs) (hdec : c.decode bs = .ok x) :
    (SerializeSafe c w (some x)).1 = .ok bs ∧
    (Deserialize c w2 (some bs) false).1 = .ok x := by
  refine ⟨serializeSafe_fst_ok c w x bs henc, ?_⟩
  simp [Deserialize, hdec]

/-- Witness for C3 at the concrete codec and value 5. -/
theorem serializeSafe_deserialize_roundtrip_witness :
    (SerializeSafe natCodec ⟨[], []⟩ (some 5)).1 = .ok [5] ∧
    (Deserialize natCodec ⟨[], []⟩ (some [5]) false).1 = .ok 5 :=
  serializeSafe_deserialize_roundtrip natCodec ⟨[], []⟩ ⟨[], []⟩ 5 [5] rfl rfl

/-- C4: releasing an encoder entry whose buffer capacity exceeds
MAX_BUF_CAP leaves the pool unchanged (the entry is discarded, never
held by the pool), the discarded entry is not the one handed out by the
next acquire, and a release of any entry preserves the size-cap
invariant of the pool. -/
theorem putPooledEncoder_size_cap (pool : List PooledEncoder)
    (pe0 : PooledEncoder) (hcap : MAX_BUF_CAP < pe0.buf.cap)
    (hout : pe0 ∉ pool) :
    putPooledEncoder pool pe0 = pool ∧
    pe0 ∉ putPooledEncoder pool pe0 ∧
    (getPooledEncoder (putPooledEncoder pool pe0)).1 ≠ pe0 ∧
    (∀ pe1 : PooledEncoder,
      (∀ pe ∈ pool, pe.buf.cap ≤ MAX_BUF_CAP) →
      ∀ pe ∈ putPooledEncoder pool pe1, pe.buf.cap ≤ MAX_BUF_CAP) := by
  have hput : putPooledEncoder pool pe0 = pool := by
    simp [putPooledEncoder, hcap]
  refine ⟨hput, by rw [hput]; exact hout, ?_, ?_⟩
  · rw [hput]
    cases pool with
    | nil =>
      intro h
      have hc : pe0.buf.cap = 0 := by
        rw [show pe0 = newPooledEncoder from h.symm]
        rfl
      rw [hc] at hcap
      exact absurd hcap (Nat.not_lt_zero _)
    | cons pe rest =>
      intro h
      exact hout (h ▸ List.mem_cons_self pe rest)
  · intro pe1 hinv pe hmem
    unfold putPooledEncoder at hmem
    split at hmem
    · exact hinv pe hmem
    · rcases List.mem_cons.mp hmem with h | h
      · subst h; omega
      · exact hinv pe h

/-- Witness for C4: an oversized entry released into the empty pool is
discarded. -/
theorem putPooledEncoder_size_cap_witness :
    putPooledEncoder [] { buf := { data := [], cap := MAX_BUF_CAP + 1 } }
      = [] :=
  (putPooledEncoder_size_cap []
    { buf := { data := [], cap := MAX_BUF_CAP + 1 } }
    (Nat.lt_succ_self _) (List.not_mem_nil _)).1

/-- C5: when encoding fails inside SerializePooled on a pool satisfying
the size-cap invariant, the call returns the codec error with no
OwnedBuffer, and the acquired encoder entry (with its buffer reset) sits
back in the resulting pool: ownership is not transferred to the
caller. -/
theorem serializePooled_failure_returns_entry {V : Type} (c : Codec V)
    (w : World) (x : V) (e : String) (herr : c.encode x = .error e)
    (hinv : ∀ pe ∈ w.encPool, pe.buf.cap ≤ MAX_BUF_CAP) :
    (SerializePooled c w (some x)).1 = .error e ∧
    (SerializePooled c w (some x)).2.encPool
      = { buf := (getPooledEncoder w.encPool).1.buf.reset }
          :: (getPooledEncoder w.encPool).2 := by
  have hcap : (getPooledEncoder w.encPool).1.buf.cap ≤ MAX_BUF_CAP :=
    getPooledEncoder_cap_le _ hinv
  constructor
  · simp [SerializePooled, herr]
  · simp only [SerializePooled, herr]
    unfold putPooledEncoder
    rw [if_neg]
    simp only [Buffer.reset]
    omega

/-- Witness for C5: the always-failing codec on the empty pool returns
its error and the fresh entry is back in the pool. -/
theorem serializePooled_failure_returns_entry_witness :
    (SerializePooled failCodec ⟨[], []⟩ (some 0)).1 = .error "encode failure" ∧
    (SerializePooled failCodec ⟨[], []⟩ (some 0)).2.encPool
      = [{ buf := { data := [], cap := 0 } }] := by
  have h := serializePooled_failure_returns_entry failCodec ⟨[], []⟩ 0
    "encode failure" rfl (by simp)
  exact ⟨h.1, by rw [h.2]; rfl⟩

/-- C7: the size ceiling of the spec-modelled SizeCappedBufferPool is
the constructor parameter of the JSON serializer, and a ceiling that is
not positive means uncapped: every released entry is kept by the pool
(length reset) regardless of its capacity. -/
theorem bufferPool_ceiling_configurable_and_uncapped (m : Int) (hm : m ≤ 0)
    (st : PooledBufferPool) (hst : st.maxBufferSize = m) (b : Buffer) :
    (NewJSONSerializer m).pool.maxBufferSize = m ∧
    st.Put b = { st with entries := b.reset :: st.entries } := by
  refine ⟨rfl, ?_⟩
  have hcond : ¬ (0 < st.maxBufferSize ∧ st.maxBufferSize < (b.cap : Int)) := by
    rintro ⟨h1, -⟩
    rw [hst] at h1
    omega
  simp [PooledBufferPool.Put, hcond]

/-- Witness for C7: with ceiling 0 an arbitrarily large released buffer
is kept. -/
theorem bufferPool_ceiling_configurable_and_uncapped_witness :
    (newPooledBufferPool 0).Put
        { data := [1], cap := MAX_BUF_CAP + MAX_BUF_CAP }
      = { maxBufferSize := 0,
          entries := [{ data := [], cap := MAX_BUF_CAP + MAX_BUF_CAP }] } := by
  have h := (bufferPool_ceiling_configurable_and_uncapped 0 (by omega)
    (newPooledBufferPool 0) rfl
    { data := [1], cap := MAX_BUF_CAP + MAX_BUF_CAP }).2
  rw [h]
  rfl

/-- C8: a DeserializeFromPooled call on a live handle leaves the encoder
pool untouched (the held entry is not returned to the pool by the call
and the handle is not modified, so Bytes and Len still report the data
of the held entry), and only a later Release on the handle returns that
entry to the pool. -/
theorem deserializeFromPooled_does_not_release {V : Type} (c : Codec V)
    (w : World) (pb : PooledBuf) (pe : PooledEncoder)
    (hact : pb.pe = some pe) :
    (DeserializeFromPooled c w (some pb) false).2.encPool = w.encPool ∧
    pb.Bytes = pe.buf.bytes ∧
    pb.Len = pe.buf.len ∧
    (∀ w2 : World, (pb.Release w2).1.pe = none ∧
      (pb.Release w2).2.encPool = putPooledEncoder w2.encPool pe) := by
  refine ⟨?_, by simp [PooledBuf.Bytes, hact], by simp [PooledBuf.Len, hact],
    fun w2 => by simp [PooledBuf.Release, hact]⟩
  simp only [DeserializeFromPooled]
  cases hb : pb.Bytes with
  | none => simp [hb]
  | some d => simp [hb]

/-- Witness for C8 on a concrete live handle: the call leaves the
encoder pool empty, exactly as it started. -/
theorem deserializeFromPooled_does_not_release_witness :
    (DeserializeFromPooled natCodec ⟨[], []⟩
        (some ⟨some { buf := { data := [5], cap := 1 } }⟩) false).2.encPool
      = [] :=
  (deserializeFromPooled_does_not_release natCodec ⟨[], []⟩
    ⟨some { buf := { data := [5], cap := 1 } }⟩
    { buf := { data := [5], cap := 1 } } rfl).1

end GoSerializer
